import Mathlib

/-!
Shallow embedding of the maze-game movement/tile core:
`Level.js` (grid, tile queries, start finding, constructor) and
`Player.js` (avatar state, movement state machine, arrival handling).

Modelling conventions
- JS numbers used as tile codes and grid coordinates are modelled as `Int`
  (they only ever hold small integers in the source).
- JS pixel arithmetic (`px`, `py`, `speed`, `deltaTime`) is modelled over `ℝ`.
- JS array access `a[i]` yields `undefined` when `i` is out of range; we model
  reads as `Option`.  Member access on `undefined` (e.g. `this.grid[r][c]` when
  `this.grid[r]` is `undefined`) throws a `TypeError`; functions that may throw
  return `Except Unit`.
- `null` is modelled as `none` of an `Option` type.
-/

/-- JS array read `xs[i]` for a possibly negative index: `undefined` (`none`)
when out of range. -/
def jsIndex {α : Type} (xs : List α) (i : Int) : Option α :=
  if 0 ≤ i then xs[i.toNat]? else none

/-- `Level` from Level.js: the tile grid, the tile size in pixels and the
recorded start position (`this.start`, `null` when absent). -/
structure Level where
  grid : List (List Int)
  ts : ℝ
  start : Option (Nat × Nat)

/-- `Level.rows`: `this.grid.length`. -/
def Level.rows (lv : Level) : Int :=
  lv.grid.length

/-- `Level.cols`: `this.grid[0].length`.  In JS this throws on an empty grid,
but every caller (`inBounds` after `r < rows()`, `findStart` inside the outer
loop) only reaches it when the grid has at least one row, so reading the head
with default `[]` agrees with the source at every call site. -/
def Level.cols (lv : Level) : Int :=
  (lv.grid.headD []).length

/-- `Level.inBounds`: `r >= 0 && c >= 0 && r < this.rows() && c < this.cols()`.
Thanks to `&&` short-circuiting, `cols()` is only evaluated when `r < rows()`
holds, i.e. when the grid is nonempty, so this is total. -/
def Level.inBounds (lv : Level) (r c : Int) : Bool :=
  decide (0 ≤ r) && decide (0 ≤ c) && decide (r < lv.rows) && decide (c < lv.cols)

/-- `Level.tileAt`: `return this.grid[r][c]`.  Throws (`.error ()`) when
`this.grid[r]` is `undefined`; yields `undefined` (`none`) when the row exists
but `c` is out of range. -/
def Level.tileAt (lv : Level) (r c : Int) : Except Unit (Option Int) :=
  match jsIndex lv.grid r with
  | none => .error ()
  | some row => .ok (jsIndex row c)

/-- Pure view of a grid cell: `some v` when both indices are in range. -/
def tileAtB (g : List (List Int)) (r c : Int) : Option Int :=
  (jsIndex g r).bind fun row => jsIndex row c

/-- `Level.isWall`: `this.tileAt(r, c) === 1` (strict equality with
`undefined` is `false`). -/
def Level.isWall (lv : Level) (r c : Int) : Except Unit Bool :=
  (lv.tileAt r c).map fun v => decide (v = some 1)

/-- `Level.isGoal`: `this.tileAt(r, c) === 3`. -/
def Level.isGoal (lv : Level) (r c : Int) : Except Unit Bool :=
  (lv.tileAt r c).map fun v => decide (v = some 3)

/-- `Level.isKey`: `this.tileAt(r, c) === 4`. -/
def Level.isKey (lv : Level) (r c : Int) : Except Unit Bool :=
  (lv.tileAt r c).map fun v => decide (v = some 4)

/-- `Level.isGate`: `this.tileAt(r, c) === 5`. -/
def Level.isGate (lv : Level) (r c : Int) : Except Unit Bool :=
  (lv.tileAt r c).map fun v => decide (v = some 5)

/-- The inner loop of `Level.findStart`: scan `row` from column counter `c`
while `c < cols`, returning the first `c` with `row[c] === 2`.  A row shorter
than `cols` yields `undefined` for the missing cells, which never equals `2`,
so running off the end of the row returns `none` exactly as the JS loop does. -/
def rowScan (cols : Nat) : List Int → Nat → Option Nat
  | [], _ => none
  | v :: rest, c =>
    if cols ≤ c then none
    else if v = 2 then some c else rowScan cols rest (c + 1)

/-- The outer loop of `Level.findStart`: scan rows from row counter `r`. -/
def findStartAux (cols : Nat) : List (List Int) → Nat → Option (Nat × Nat)
  | [], _ => none
  | row :: rest, r =>
    match rowScan cols row 0 with
    | some c => some (r, c)
    | none => findStartAux cols rest (r + 1)

/-- `Level.findStart`: row-major scan for the first tile equal to `2` (start),
with the column range fixed by the first row's length (`this.cols()`);
returns `null` (`none`) when no start tile is found. -/
def findStart (g : List (List Int)) : Option (Nat × Nat) :=
  findStartAux (g.headD []).length g 0

/-- The JS assignment `grid[r][c] = v`.  At every call site in the source the
indices were just validated by a tile query, so the out-of-range guard is never
taken there. -/
def setTile (g : List (List Int)) (r c : Int) (v : Int) : List (List Int) :=
  if 0 ≤ r ∧ 0 ≤ c then g.set r.toNat ((g.getD r.toNat []).set c.toNat v) else g

/-- The `Level` constructor: store the grid and tile size, record
`this.start = this.findStart()`, and if a start was found normalize that cell
to floor (`this.grid[this.start.r][this.start.c] = 0`).  No validation of any
kind is performed. -/
def buildLevel (g : List (List Int)) (ts : ℝ) : Level :=
  let s := findStart g
  { grid :=
      match s with
      | some (r, c) => setTile g (r : Int) (c : Int) 0
      | none => g
    ts := ts
    start := s }

/-- A grid is rectangular: every row has the length of the first row. -/
def Rect (g : List (List Int)) : Prop :=
  ∀ row ∈ g, row.length = (g.headD []).length

instance (g : List (List Int)) : Decidable (Rect g) := by
  unfold Rect; infer_instance

/-- Pure `Nat`-indexed cell read, used to state grid-content properties. -/
def tileN (g : List (List Int)) (r c : Nat) : Option Int :=
  g[r]?.bind fun row => row[c]?

/-- Number of start codes (`2`) in a grid. -/
def countStarts (g : List (List Int)) : Nat :=
  (g.map fun row => row.countP fun v => decide (v = 2)).sum

/-- `Player` from Player.js.  `targetR`/`targetC` are `null` (`none`) until a
move starts; `px`/`py`/`speed`/`ts`/`movedAt`/`moveDelay` live in pixel or
millisecond space and are modelled over `ℝ`. -/
structure Player where
  ts : ℝ
  r : Int
  c : Int
  movedAt : ℝ
  moveDelay : ℝ
  keysCollected : Int
  moving : Bool
  targetR : Option Int
  targetC : Option Int
  px : ℝ
  py : ℝ
  speed : ℝ
  arrivedThisFrame : Bool
  dirR : Int
  dirC : Int

/-- The `Player` constructor (`new Player(tileSize)`). -/
noncomputable def initPlayer (tileSize : ℝ) : Player :=
  { ts := tileSize, r := 0, c := 0, movedAt := 0, moveDelay := 90,
    keysCollected := 0, moving := false, targetR := none, targetC := none,
    px := 0, py := 0, speed := 130, arrivedThisFrame := false,
    dirR := 0, dirC := 0 }

/-- `Player.setCell`: place the player at a grid location and re-centre the
pixel position on that tile. -/
noncomputable def Player.setCell (p : Player) (r c : Int) : Player :=
  { p with
    r := r,
    c := c,
    px := (c : ℝ) * p.ts + p.ts / 2,
    py := (r : ℝ) * p.ts + p.ts / 2,
    arrivedThisFrame := false }

/-- `Player.resetKey`: `this.keysCollected = 0`. -/
def Player.resetKey (p : Player) : Player :=
  { p with keysCollected := 0 }

/-- `Player.canMoveTo`: bounds, wall and locked-gate check, with the same
evaluation order as the source (each tile query may in principle throw, but
the preceding `inBounds` guard makes the row index valid). -/
def canMoveTo (lv : Level) (keys : Int) (nr nc : Int) : Except Unit Bool :=
  if !(lv.inBounds nr nc) then .ok false
  else
    match lv.isWall nr nc with
    | .error e => .error e
    | .ok w =>
      if w then .ok false
      else
        match lv.isGate nr nc with
        | .error e => .error e
        | .ok g =>
          if g && decide (keys = 0) then .ok false else .ok true

/-- Pure form of `canMoveTo` (proved equal to it in `canMoveTo_eq`). -/
def canMoveToB (lv : Level) (keys : Int) (nr nc : Int) : Bool :=
  lv.inBounds nr nc
    && !(decide (tileAtB lv.grid nr nc = some 1))
    && !(decide (tileAtB lv.grid nr nc = some 5) && decide (keys = 0))

/-- `Player.tryMove`: set the persistent direction first; if already moving
report accepted; otherwise start moving to the neighbour cell when
`canMoveTo` allows it.  Returns the JS boolean result paired with the updated
player. -/
def tryMove (lv : Level) (p : Player) (dr dc : Int) : Except Unit (Bool × Player) :=
  let p1 : Player := { p with dirR := dr, dirC := dc }
  if p1.moving then .ok (true, p1)
  else
    let nr := p1.r + dr
    let nc := p1.c + dc
    match canMoveTo lv p1.keysCollected nr nc with
    | .error e => .error e
    | .ok ok =>
      if !ok then .ok (false, p1)
      else .ok (true, { p1 with targetR := some nr, targetC := some nc, moving := true })

/-- `Player.tryContinue`: restart movement in the persisted direction after an
arrival, when not moving and the direction is nonzero. -/
def tryContinue (lv : Level) (p : Player) : Except Unit (Bool × Player) :=
  if p.moving then .ok (true, p)
  else if p.dirR = 0 ∧ p.dirC = 0 then .ok (false, p)
  else
    let nr := p.r + p.dirR
    let nc := p.c + p.dirC
    match canMoveTo lv p.keysCollected nr nc with
    | .error e => .error e
    | .ok ok =>
      if !ok then .ok (false, p)
      else .ok (true, { p with targetR := some nr, targetC := some nc, moving := true })

/-- `Player.finishMove`: commit the grid position to the target and flag the
arrival.  The source only ever calls this while `moving` with both targets
set (they are assigned before `moving` is), so projecting the `Option` with
the current value as default is faithful; note that `targetR`/`targetC` are
NOT cleared. -/
def Player.finishMove (p : Player) : Player :=
  { p with
    r := p.targetR.getD p.r,
    c := p.targetC.getD p.c,
    moving := false,
    arrivedThisFrame := true }

/-- JS numeric coercion of a possibly-`null` integer (`null` coerces to 0);
used for `this.targetC * this.ts` where `targetC` may be `null`. -/
def jsNum (o : Option Int) : ℝ :=
  ((o.getD 0 : Int) : ℝ)

/-- `Player.update`: advance the pixel position toward the target cell centre
by `speed * (deltaTime / 1000)`; snap and finish when the step reaches the
remaining Euclidean distance.  `dt` is the frame's `deltaTime` in
milliseconds. -/
noncomputable def update (dt : ℝ) (p : Player) : Player :=
  if p.moving = false then p
  else
    let targetPx := jsNum p.targetC * p.ts + p.ts / 2
    let targetPy := jsNum p.targetR * p.ts + p.ts / 2
    let dx := targetPx - p.px
    let dy := targetPy - p.py
    let dist := Real.sqrt (dx * dx + dy * dy)
    if dist = 0 then p.finishMove
    else
      let step := p.speed * (dt / 1000)
      if dist ≤ step then
        Player.finishMove { p with px := targetPx, py := targetPy }
      else
        { p with px := p.px + dx / dist * step, py := p.py + dy / dist * step }

/-- The pixel x-coordinate of the target cell's centre, as computed inside
`Player.update` (`this.targetC * this.ts + this.ts / 2`). -/
noncomputable def targetPixelX (p : Player) : ℝ :=
  jsNum p.targetC * p.ts + p.ts / 2

/-- The pixel y-coordinate of the target cell's centre. -/
noncomputable def targetPixelY (p : Player) : ℝ :=
  jsNum p.targetR * p.ts + p.ts / 2

/-- The remaining Euclidean distance from the current pixel position to the
target cell's centre (`Math.sqrt(dx * dx + dy * dy)` in `update`). -/
noncomputable def remainingDist (p : Player) : ℝ :=
  Real.sqrt ((targetPixelX p - p.px) * (targetPixelX p - p.px) +
    (targetPixelY p - p.py) * (targetPixelY p - p.py))

/-- The step length a frame covers: `this.speed * (deltaTime / 1000)`. -/
noncomputable def stepSize (dt : ℝ) (p : Player) : ℝ :=
  p.speed * (dt / 1000)

/-- A transiting player configuration used as a concrete evaluation point:
mid-grid, one cell to the right as target. -/
noncomputable def demoTransit : Player :=
  { initPlayer 32 with
    moving := true
    targetR := some 0
    targetC := some 1
    px := 16
    py := 16 }

/-- `Player.handleArrival`: collect a key (increment and consume) and/or pass
a gate (decrement clamped at 0 and consume) at the current cell, then clear
`arrivedThisFrame`.  The gate test runs on the grid as mutated by the key
branch, exactly as in the source. -/
def handleArrival (lv : Level) (p : Player) : Except Unit (Player × Level) :=
  match lv.isKey p.r p.c with
  | .error e => .error e
  | .ok k =>
    let p1 : Player := if k then { p with keysCollected := p.keysCollected + 1 } else p
    let lv1 : Level := if k then { lv with grid := setTile lv.grid p.r p.c 0 } else lv
    match lv1.isGate p1.r p1.c with
    | .error e => .error e
    | .ok g =>
      let p2 : Player :=
        if g then { p1 with keysCollected := max 0 (p1.keysCollected - 1) } else p1
      let lv2 : Level :=
        if g then { lv1 with grid := setTile lv1.grid p1.r p1.c 0 } else lv1
      .ok ({ p2 with arrivedThisFrame := false }, lv2)

/-- Avatar states reachable through the operations the orchestrator
(sketch.js) performs on a `Player`: construction, level-load placement and
resets, move requests, per-frame updates and arrival resolution. -/
inductive Reachable : Player → Prop
  | construct (ts : ℝ) : Reachable (initPlayer ts)
  | place (p : Player) (r c : Int) : Reachable p → Reachable (p.setCell r c)
  | reset_keys (p : Player) : Reachable p → Reachable p.resetKey
  | load_reset (p : Player) : Reachable p →
      Reachable { p with moving := false, dirR := 0, dirC := 0, arrivedThisFrame := false }
  | move (lv : Level) (p : Player) (dr dc : Int) (b : Bool) (p' : Player) :
      Reachable p → tryMove lv p dr dc = .ok (b, p') → Reachable p'
  | continue_move (lv : Level) (p : Player) (b : Bool) (p' : Player) :
      Reachable p → tryContinue lv p = .ok (b, p') → Reachable p'
  | advance (dt : ℝ) (p : Player) : Reachable p → Reachable (update dt p)
  | resolve (lv : Level) (p p' : Player) (lv' : Level) :
      Reachable p → handleArrival lv p = .ok (p', lv') → Reachable p'

/- ### Basic lemmas about the embedding -/

theorem jsIndex_isSome {α : Type} (xs : List α) (i : Int)
    (h0 : 0 ≤ i) (h1 : i < (xs.length : Int)) : ∃ a, jsIndex xs i = some a := by
  have ht : i.toNat < xs.length := by omega
  exact ⟨xs.get ⟨i.toNat, ht⟩, by simp [jsIndex, h0, List.getElem?_eq_getElem ht]⟩

theorem inBounds_iff (lv : Level) (r c : Int) :
    lv.inBounds r c = true ↔ 0 ≤ r ∧ 0 ≤ c ∧ r < lv.rows ∧ c < lv.cols := by
  simp [Level.inBounds, and_assoc]

/-- An in-bounds row index addresses an existing row. -/
theorem row_of_inBounds (lv : Level) (r c : Int) (h : lv.inBounds r c = true) :
    ∃ row, jsIndex lv.grid r = some row := by
  rcases (inBounds_iff lv r c).mp h with ⟨h0, _, h2, _⟩
  exact jsIndex_isSome lv.grid r h0 (by simpa [Level.rows] using h2)

theorem tileAtB_of_row (g : List (List Int)) (r c : Int) (row : List Int)
    (h : jsIndex g r = some row) : tileAtB g r c = jsIndex row c := by
  simp [tileAtB, h]

theorem isWall_of_row (lv : Level) (r c : Int) (row : List Int)
    (h : jsIndex lv.grid r = some row) :
    lv.isWall r c = .ok (decide (tileAtB lv.grid r c = some 1)) := by
  simp [Level.isWall, Level.tileAt, h, tileAtB_of_row lv.grid r c row h, Except.map]

theorem isGoal_of_row (lv : Level) (r c : Int) (row : List Int)
    (h : jsIndex lv.grid r = some row) :
    lv.isGoal r c = .ok (decide (tileAtB lv.grid r c = some 3)) := by
  simp [Level.isGoal, Level.tileAt, h, tileAtB_of_row lv.grid r c row h, Except.map]

theorem isKey_of_row (lv : Level) (r c : Int) (row : List Int)
    (h : jsIndex lv.grid r = some row) :
    lv.isKey r c = .ok (decide (tileAtB lv.grid r c = some 4)) := by
  simp [Level.isKey, Level.tileAt, h, tileAtB_of_row lv.grid r c row h, Except.map]

theorem isGate_of_row (lv : Level) (r c : Int) (row : List Int)
    (h : jsIndex lv.grid r = some row) :
    lv.isGate r c = .ok (decide (tileAtB lv.grid r c = some 5)) := by
  simp [Level.isGate, Level.tileAt, h, tileAtB_of_row lv.grid r c row h, Except.map]

/-- `canMoveTo` never throws: it equals its pure form `canMoveToB`. -/
theorem canMoveTo_eq (lv : Level) (keys nr nc : Int) :
    canMoveTo lv keys nr nc = .ok (canMoveToB lv keys nr nc) := by
  by_cases hb : lv.inBounds nr nc = true
  · obtain ⟨row, hrow⟩ := row_of_inBounds lv nr nc hb
    rw [canMoveTo, canMoveToB, hb, isWall_of_row lv nr nc row hrow,
      isGate_of_row lv nr nc row hrow]
    by_cases h1 : tileAtB lv.grid nr nc = some 1 <;>
      by_cases h5 : tileAtB lv.grid nr nc = some 5 <;>
        by_cases hk : keys = 0 <;> simp [h1, h5, hk]
  · have hb' : lv.inBounds nr nc = false := by
      cases h : lv.inBounds nr nc
      · rfl
      · exact absurd h hb
    simp [canMoveTo, canMoveToB, hb']

theorem jsIndex_natCast {α : Type} (xs : List α) (n : Nat) :
    jsIndex xs (n : Int) = xs[n]? := by
  simp [jsIndex]

theorem tileAtB_natCast (g : List (List Int)) (r c : Nat) :
    tileAtB g (r : Int) (c : Int) = tileN g r c := by
  simp [tileAtB, tileN, jsIndex_natCast]

theorem setTile_natCast (g : List (List Int)) (r c : Nat) (v : Int) :
    setTile g (r : Int) (c : Int) v = g.set r ((g.getD r []).set c v) := by
  simp [setTile]

theorem length_setTile (g : List (List Int)) (r c v : Int) :
    (setTile g r c v).length = g.length := by
  unfold setTile; split <;> simp

/-- Writing a cell whose indices address an existing entry makes that entry
read back as the written value. -/
theorem tileAtB_setTile_self (g : List (List Int)) (r c v : Int) (row : List Int) (t : Int)
    (hrow : jsIndex g r = some row) (hc : jsIndex row c = some t) :
    tileAtB (setTile g r c v) r c = some v := by
  have h0r : 0 ≤ r := by
    by_contra h; simp [jsIndex, h] at hrow
  have h0c : 0 ≤ c := by
    by_contra h; simp [jsIndex, h] at hc
  have hrow' : g[r.toNat]? = some row := by simpa [jsIndex, h0r] using hrow
  have hc' : row[c.toNat]? = some t := by simpa [jsIndex, h0c] using hc
  have hrl : r.toNat < g.length := (List.getElem?_eq_some.mp hrow').1
  have hcl : c.toNat < row.length := (List.getElem?_eq_some.mp hc').1
  have hD : g.getD r.toNat [] = row := by
    simp [List.getD_eq_getElem?_getD, hrow']
  simp only [setTile, h0r, h0c, and_self, if_pos, tileAtB, jsIndex, hD]
  rw [List.getElem?_set_eq_of_lt _ hrl]
  simp [List.getElem?_set_eq_of_lt _ hcl]

theorem tileN_setTile_self (g : List (List Int)) (r c : Nat) (v : Int) (row : List Int) (t : Int)
    (hrow : g[r]? = some row) (hc : row[c]? = some t) :
    tileN (setTile g (r : Int) (c : Int) v) r c = some v := by
  rw [← tileAtB_natCast]
  exact tileAtB_setTile_self g r c v row t (by simpa [jsIndex_natCast] using hrow)
    (by simpa [jsIndex_natCast] using hc)

theorem tileN_setTile_other (g : List (List Int)) (r c : Nat) (v : Int) (r' c' : Nat)
    (h : ¬(r' = r ∧ c' = c)) :
    tileN (setTile g (r : Int) (c : Int) v) r' c' = tileN g r' c' := by
  rw [setTile_natCast]
  by_cases hr : r' = r
  · subst hr
    have hc : c' ≠ c := by tauto
    by_cases hrl : r' < g.length
    · rw [tileN, List.getElem?_set_eq_of_lt _ hrl, tileN]
      have hD : g.getD r' [] = g[r'] := by
        simp [List.getD_eq_getElem?_getD, List.getElem?_eq_getElem hrl]
      rw [hD, List.getElem?_eq_getElem hrl]
      simp [List.getElem?_set_ne (by omega : c ≠ c')]
    · have h1 : (g.set r' ((g.getD r' []).set c v))[r']? = none := by
        rw [List.getElem?_eq_none]
        simp only [List.length_set]
        omega
      have h2 : g[r']? = none := by
        rw [List.getElem?_eq_none]
        omega
      rw [tileN, tileN, h1, h2]
  · rw [tileN, tileN, List.getElem?_set_ne (by omega : r ≠ r')]

theorem jsIndex_setTile_row (g : List (List Int)) (r c v : Int) (row : List Int)
    (hrow : jsIndex g r = some row) (h0c : 0 ≤ c) :
    jsIndex (setTile g r c v) r = some (row.set c.toNat v) := by
  have h0r : 0 ≤ r := by
    by_contra h; simp [jsIndex, h] at hrow
  have hrow' : g[r.toNat]? = some row := by simpa [jsIndex, h0r] using hrow
  have hrl : r.toNat < g.length := (List.getElem?_eq_some.mp hrow').1
  have hD : g.getD r.toNat [] = row := by
    simp [List.getD_eq_getElem?_getD, hrow']
  simp only [setTile, h0r, h0c, and_self, if_pos, jsIndex, hD]
  exact List.getElem?_set_eq_of_lt _ hrl

/-- `handleArrival` on a key tile: increment the key count and consume the
tile. -/
theorem handleArrival_key (lv : Level) (p : Player) (row : List Int)
    (hrow : jsIndex lv.grid p.r = some row)
    (ht : tileAtB lv.grid p.r p.c = some 4) :
    handleArrival lv p =
      .ok ({ p with keysCollected := p.keysCollected + 1, arrivedThisFrame := false },
           { lv with grid := setTile lv.grid p.r p.c 0 }) := by
  have h0c : 0 ≤ p.c := by
    by_contra h
    rw [tileAtB_of_row lv.grid p.r p.c row hrow] at ht
    simp [jsIndex, h] at ht
  have hkey : lv.isKey p.r p.c = .ok true := by
    rw [isKey_of_row lv p.r p.c row hrow, ht]; simp
  have hrow1 : jsIndex (setTile lv.grid p.r p.c 0) p.r = some (row.set p.c.toNat 0) :=
    jsIndex_setTile_row lv.grid p.r p.c 0 row hrow h0c
  have ht1 : tileAtB (setTile lv.grid p.r p.c 0) p.r p.c = some 0 :=
    tileAtB_setTile_self lv.grid p.r p.c 0 row 4 hrow
      (by rw [tileAtB_of_row lv.grid p.r p.c row hrow] at ht; exact ht)
  have hgate : Level.isGate { lv with grid := setTile lv.grid p.r p.c 0 } p.r p.c = .ok false := by
    rw [isGate_of_row _ p.r p.c _ hrow1]
    dsimp only
    rw [ht1]
    simp
  rw [handleArrival, hkey]
  simp only [if_pos]
  rw [hgate]
  simp

/-- `handleArrival` on a gate tile: decrement the key count (clamped at 0)
and consume the tile. -/
theorem handleArrival_gate (lv : Level) (p : Player) (row : List Int)
    (hrow : jsIndex lv.grid p.r = some row)
    (ht : tileAtB lv.grid p.r p.c = some 5) :
    handleArrival lv p =
      .ok ({ p with keysCollected := max 0 (p.keysCollected - 1), arrivedThisFrame := false },
           { lv with grid := setTile lv.grid p.r p.c 0 }) := by
  have hkey : lv.isKey p.r p.c = .ok false := by
    rw [isKey_of_row lv p.r p.c row hrow, ht]; simp
  have hgate : lv.isGate p.r p.c = .ok true := by
    rw [isGate_of_row lv p.r p.c row hrow, ht]; simp
  rw [handleArrival, hkey]
  simp only [if_neg, Bool.false_eq_true, not_false_iff]
  rw [hgate]
  simp

/-- `handleArrival` on any tile that is neither a key nor a gate: only the
`arrivedThisFrame` flag changes. -/
theorem handleArrival_plain (lv : Level) (p : Player) (row : List Int)
    (hrow : jsIndex lv.grid p.r = some row)
    (h4 : tileAtB lv.grid p.r p.c ≠ some 4)
    (h5 : tileAtB lv.grid p.r p.c ≠ some 5) :
    handleArrival lv p = .ok ({ p with arrivedThisFrame := false }, lv) := by
  have hkey : lv.isKey p.r p.c = .ok false := by
    rw [isKey_of_row lv p.r p.c row hrow]; simp [h4]
  have hgate : lv.isGate p.r p.c = .ok false := by
    rw [isGate_of_row lv p.r p.c row hrow]; simp [h5]
  rw [handleArrival, hkey]
  simp only [if_neg, Bool.false_eq_true, not_false_iff]
  rw [hgate]
  simp

/-- `handleArrival` throws when the avatar's row is outside the grid
(`this.grid[r]` is `undefined`). -/
theorem handleArrival_oob (lv : Level) (p : Player)
    (hrow : jsIndex lv.grid p.r = none) :
    handleArrival lv p = .error () := by
  have hkey : lv.isKey p.r p.c = .error () := by
    simp [Level.isKey, Level.tileAt, hrow, Except.map]
  rw [handleArrival, hkey]

/- ### Field-preservation lemmas for the movement operations -/

theorem tryMove_keys (lv : Level) (p : Player) (dr dc : Int) (b : Bool) (p' : Player)
    (h : tryMove lv p dr dc = .ok (b, p')) : p'.keysCollected = p.keysCollected := by
  rw [tryMove.eq_def] at h
  simp only [] at h
  split at h
  · simp only [Except.ok.injEq, Prod.mk.injEq] at h
    obtain ⟨-, hp⟩ := h
    subst hp
    rfl
  · rw [canMoveTo_eq] at h
    simp only [] at h
    split at h <;>
      (simp only [Except.ok.injEq, Prod.mk.injEq] at h; obtain ⟨-, hp⟩ := h; subst hp; rfl)

theorem tryContinue_keys (lv : Level) (p : Player) (b : Bool) (p' : Player)
    (h : tryContinue lv p = .ok (b, p')) : p'.keysCollected = p.keysCollected := by
  rw [tryContinue.eq_def] at h
  simp only [] at h
  split at h
  · simp only [Except.ok.injEq, Prod.mk.injEq] at h
    obtain ⟨-, hp⟩ := h
    subst hp
    rfl
  · split at h
    · simp only [Except.ok.injEq, Prod.mk.injEq] at h
      obtain ⟨-, hp⟩ := h
      subst hp
      rfl
    · rw [canMoveTo_eq] at h
      simp only [] at h
      split at h <;>
        (simp only [Except.ok.injEq, Prod.mk.injEq] at h; obtain ⟨-, hp⟩ := h; subst hp; rfl)

theorem update_keys (dt : ℝ) (p : Player) :
    (update dt p).keysCollected = p.keysCollected := by
  rw [update.eq_def]
  split
  · rfl
  · dsimp only
    split
    · simp [Player.finishMove]
    · split <;> simp [Player.finishMove]

theorem handleArrival_keys_nonneg (lv : Level) (p p' : Player) (lv' : Level)
    (h : handleArrival lv p = .ok (p', lv')) (h0 : 0 ≤ p.keysCollected) :
    0 ≤ p'.keysCollected := by
  rw [handleArrival.eq_def] at h
  split at h
  · cases h
  · simp only [] at h
    split at h
    · cases h
    · simp only [Except.ok.injEq, Prod.mk.injEq] at h
      obtain ⟨hp, -⟩ := h
      subst hp
      split <;> split <;> simp <;> omega

/-- `tryMove` while already moving: only the direction changes, result true. -/
theorem tryMove_moving (lv : Level) (p : Player) (dr dc : Int) (h : p.moving = true) :
    tryMove lv p dr dc = .ok (true, { p with dirR := dr, dirC := dc }) := by
  rw [tryMove.eq_def]
  simp [h]

/-- `tryMove` while idle: start the transit iff the neighbour passes the
collision check. -/
theorem tryMove_idle (lv : Level) (p : Player) (dr dc : Int) (h : p.moving = false) :
    tryMove lv p dr dc =
      if canMoveToB lv p.keysCollected (p.r + dr) (p.c + dc) then
        .ok (true, { p with
          dirR := dr
          dirC := dc
          targetR := some (p.r + dr)
          targetC := some (p.c + dc)
          moving := true })
      else .ok (false, { p with dirR := dr, dirC := dc }) := by
  rw [tryMove.eq_def]
  simp only [canMoveTo_eq, h]
  by_cases hc : canMoveToB lv p.keysCollected (p.r + dr) (p.c + dc) = true <;>
    simp [hc]

/-- `tryContinue` while idle with a nonzero direction and a passable
neighbour: restart the transit toward it. -/
theorem tryContinue_go (lv : Level) (q : Player) (h : q.moving = false)
    (hd : ¬(q.dirR = 0 ∧ q.dirC = 0))
    (hc : canMoveToB lv q.keysCollected (q.r + q.dirR) (q.c + q.dirC) = true) :
    tryContinue lv q =
      .ok (true, { q with
        targetR := some (q.r + q.dirR)
        targetC := some (q.c + q.dirC)
        moving := true }) := by
  rw [tryContinue.eq_def]
  simp [h, hd, canMoveTo_eq, hc]

/- ### Claim theorems -/

/-- C1: for every avatar state and grid, a move into an in-bounds Gate cell
with `keysCollected == 0` is rejected by `canMoveTo`; with `keysCollected >= 1`
it is accepted, and after `handleArrival` at that cell the gate tile reads as
Floor (`0`) and `keysCollected` has decreased by exactly 1. -/
theorem claim1_gate_rule (lv : Level) (p : Player)
    (hb : lv.inBounds p.r p.c = true)
    (hg : tileAtB lv.grid p.r p.c = some 5) :
    (p.keysCollected = 0 → canMoveTo lv p.keysCollected p.r p.c = .ok false) ∧
    (1 ≤ p.keysCollected →
      canMoveTo lv p.keysCollected p.r p.c = .ok true ∧
      ∃ p' lv', handleArrival lv p = .ok (p', lv') ∧
        tileAtB lv'.grid p.r p.c = some 0 ∧
        p'.keysCollected = p.keysCollected - 1) := by
  obtain ⟨row, hrow⟩ := row_of_inBounds lv p.r p.c hb
  have hcol : jsIndex row p.c = some 5 := by
    rw [tileAtB_of_row lv.grid p.r p.c row hrow] at hg
    exact hg
  constructor
  · intro hk
    rw [canMoveTo_eq]
    simp [canMoveToB, hb, hg, hk]
  · intro hk
    have hk0 : ¬(p.keysCollected = 0) := by omega
    refine ⟨by rw [canMoveTo_eq]; simp [canMoveToB, hb, hg, hk0], ?_⟩
    refine ⟨_, _, handleArrival_gate lv p row hrow hg, ?_, ?_⟩
    · exact tileAtB_setTile_self lv.grid p.r p.c 0 row 5 hrow hcol
    · simp only []
      omega

/-- Witness for C1 at a one-cell gate grid with one key in inventory. -/
theorem claim1_gate_rule_witness :
    canMoveTo ⟨[[5]], 32, none⟩ 0 0 0 = .ok false ∧
    canMoveTo ⟨[[5]], 32, none⟩ 1 0 0 = .ok true ∧
    ∃ p' lv', handleArrival ⟨[[5]], 32, none⟩
        { initPlayer 32 with keysCollected := 1 } = .ok (p', lv') ∧
      tileAtB lv'.grid 0 0 = some 0 ∧ p'.keysCollected = 0 := by
  have h0 := claim1_gate_rule ⟨[[5]], 32, none⟩ (initPlayer 32) rfl rfl
  have h1 := claim1_gate_rule ⟨[[5]], 32, none⟩
    { initPlayer 32 with keysCollected := 1 } rfl rfl
  exact ⟨h0.1 rfl, (h1.2 (by decide)).1, (h1.2 (by decide)).2⟩

/-- C2: every reachable avatar state has a non-negative integer key count,
and it stays non-negative across any `handleArrival` from such a state. -/
theorem claim2_keys_nonneg (p : Player) (h : Reachable p) :
    0 ≤ p.keysCollected ∧
      ∀ (lv lv' : Level) (p' : Player),
        handleArrival lv p = .ok (p', lv') → 0 ≤ p'.keysCollected := by
  have main : ∀ q : Player, Reachable q → 0 ≤ q.keysCollected := by
    intro q hq
    induction hq with
    | construct ts => simp [initPlayer]
    | place p r c _ ih => simpa [Player.setCell] using ih
    | reset_keys p _ ih => simp [Player.resetKey]
    | load_reset p _ ih => simpa using ih
    | move lv p dr dc b p' _ hm ih => rw [tryMove_keys lv p dr dc b p' hm]; exact ih
    | continue_move lv p b p' _ hm ih => rw [tryContinue_keys lv p b p' hm]; exact ih
    | advance dt p _ ih => rw [update_keys]; exact ih
    | resolve lv p p' lv' _ hm ih => exact handleArrival_keys_nonneg lv p p' lv' hm ih
  exact ⟨main p h, fun lv lv' p' h' => handleArrival_keys_nonneg lv p p' lv' h' (main p h)⟩

/-- Witness for C2 at the freshly constructed player. -/
theorem claim2_keys_nonneg_witness :
    0 ≤ (initPlayer 32).keysCollected ∧
      ∀ (lv lv' : Level) (p' : Player),
        handleArrival lv (initPlayer 32) = .ok (p', lv') → 0 ≤ p'.keysCollected :=
  claim2_keys_nonneg (initPlayer 32) (Reachable.construct 32)

/-- C8: while idle, a move request whose neighbour fails the collision check
is rejected and leaves cell, pixel position and movement state (including the
transit target) unchanged. -/
theorem claim8_reject_frame (lv : Level) (p : Player) (dr dc : Int)
    (hIdle : p.moving = false)
    (hBlocked : canMoveToB lv p.keysCollected (p.r + dr) (p.c + dc) = false) :
    ∃ p', tryMove lv p dr dc = .ok (false, p') ∧
      p'.r = p.r ∧ p'.c = p.c ∧ p'.px = p.px ∧ p'.py = p.py ∧
      p'.moving = false ∧ p'.targetR = p.targetR ∧ p'.targetC = p.targetC := by
  refine ⟨{ p with dirR := dr, dirC := dc }, ?_, rfl, rfl, rfl, rfl, hIdle, rfl, rfl⟩
  rw [tryMove_idle lv p dr dc hIdle, hBlocked]
  simp

/-- Witness for C8: a wall neighbour on a 1×2 grid. -/
theorem claim8_reject_frame_witness :
    ∃ p', tryMove ⟨[[0, 1]], 32, none⟩ (initPlayer 32) 0 1 = .ok (false, p') ∧
      p'.r = (initPlayer 32).r ∧ p'.c = (initPlayer 32).c ∧
      p'.px = (initPlayer 32).px ∧ p'.py = (initPlayer 32).py ∧
      p'.moving = false ∧ p'.targetR = (initPlayer 32).targetR ∧
      p'.targetC = (initPlayer 32).targetC :=
  claim8_reject_frame ⟨[[0, 1]], 32, none⟩ (initPlayer 32) 0 1 rfl rfl

/-- C9: while transiting, any move request is reported accepted, updates only
the persisted direction and leaves every other field — in particular the
current transit target — unchanged. -/
theorem claim9_no_redirect (lv : Level) (p : Player) (dr dc : Int)
    (hMoving : p.moving = true) :
    tryMove lv p dr dc = .ok (true, { p with dirR := dr, dirC := dc }) :=
  tryMove_moving lv p dr dc hMoving

/-- Witness for C9 on a mid-transit player. -/
theorem claim9_no_redirect_witness :
    tryMove ⟨[[0, 0]], 32, none⟩
        { initPlayer 32 with moving := true, targetR := some 0, targetC := some 1 } 1 0 =
      .ok (true, { initPlayer 32 with
        moving := true
        targetR := some 0
        targetC := some 1
        dirR := 1
        dirC := 0 }) :=
  claim9_no_redirect ⟨[[0, 0]], 32, none⟩
    { initPlayer 32 with moving := true, targetR := some 0, targetC := some 1 } 1 0 rfl

/-- C10: `tryMove` overwrites the persisted direction unconditionally (even
when the move is rejected), and any later `tryContinue` from an idle state
holding that direction attempts to move in it. -/
theorem claim10_direction_overwrite (lv : Level) (p : Player) (dr dc : Int) :
    (∃ b p', tryMove lv p dr dc = .ok (b, p') ∧ p'.dirR = dr ∧ p'.dirC = dc) ∧
    (∀ q : Player, q.dirR = dr → q.dirC = dc → q.moving = false →
      ¬(dr = 0 ∧ dc = 0) →
      canMoveToB lv q.keysCollected (q.r + dr) (q.c + dc) = true →
      tryContinue lv q = .ok (true, { q with
        targetR := some (q.r + dr)
        targetC := some (q.c + dc)
        moving := true })) := by
  constructor
  · cases hm : p.moving
    · rw [tryMove_idle lv p dr dc hm]
      by_cases hc : canMoveToB lv p.keysCollected (p.r + dr) (p.c + dc) = true
      · rw [hc, if_pos rfl]
        exact ⟨true, _, rfl, rfl, rfl⟩
      · rw [if_neg (by simpa using hc)]
        exact ⟨false, _, rfl, rfl, rfl⟩
    · rw [tryMove_moving lv p dr dc hm]
      exact ⟨true, _, rfl, rfl, rfl⟩
  · intro q h1 h2 h3 h4 h5
    have := tryContinue_go lv q h3 (by rw [h1, h2]; exact h4) (by rw [h1, h2]; exact h5)
    rw [this, h1, h2]

/-- Witness for C10: direction (0,1) on a 1×2 floor grid. -/
theorem claim10_direction_overwrite_witness :
    (∃ b p', tryMove ⟨[[0, 0]], 32, none⟩ (initPlayer 32) 0 1 = .ok (b, p') ∧
      p'.dirR = 0 ∧ p'.dirC = 1) ∧
    tryContinue ⟨[[0, 0]], 32, none⟩ { initPlayer 32 with dirR := 0, dirC := 1 } =
      .ok (true, { initPlayer 32 with
        dirR := 0
        dirC := 1
        targetR := some 0
        targetC := some 1
        moving := true }) := by
  have h := claim10_direction_overwrite ⟨[[0, 0]], 32, none⟩ (initPlayer 32) 0 1
  refine ⟨h.1, ?_⟩
  have h2 := h.2 { initPlayer 32 with dirR := 0, dirC := 1 } rfl rfl rfl
    (by decide) rfl
  exact h2

/-- C7: resolving the same arrival twice without an intervening transit leaves
the key count and the grid exactly as after the first resolution — no key is
double-collected and no second key is deducted for the same gate, because the
first resolution consumed the tile. -/
theorem claim7_resolve_idempotent (lv lv1 : Level) (p p1 : Player)
    (h : handleArrival lv p = .ok (p1, lv1)) :
    ∃ p2 lv2, handleArrival lv1 p1 = .ok (p2, lv2) ∧
      p2.keysCollected = p1.keysCollected ∧ lv2.grid = lv1.grid := by
  cases hrow : jsIndex lv.grid p.r with
  | none =>
    rw [handleArrival_oob lv p hrow] at h
    cases h
  | some row0 =>
    by_cases h4 : tileAtB lv.grid p.r p.c = some 4
    · have hcol : jsIndex row0 p.c = some 4 := by
        rw [tileAtB_of_row lv.grid p.r p.c row0 hrow] at h4
        exact h4
      have h0c : 0 ≤ p.c := by
        by_contra hneg
        simp [jsIndex, hneg] at hcol
      rw [handleArrival_key lv p row0 hrow h4] at h
      simp only [Except.ok.injEq, Prod.mk.injEq] at h
      obtain ⟨hp, hl⟩ := h
      subst hp
      subst hl
      have hrow1 : jsIndex (setTile lv.grid p.r p.c 0) p.r = some (row0.set p.c.toNat 0) :=
        jsIndex_setTile_row lv.grid p.r p.c 0 row0 hrow h0c
      have ht1 : tileAtB (setTile lv.grid p.r p.c 0) p.r p.c = some 0 :=
        tileAtB_setTile_self lv.grid p.r p.c 0 row0 4 hrow hcol
      exact ⟨_, _, handleArrival_plain _ _ _ hrow1 (by rw [ht1]; simp) (by rw [ht1]; simp),
        rfl, rfl⟩
    · by_cases h5 : tileAtB lv.grid p.r p.c = some 5
      · have hcol : jsIndex row0 p.c = some 5 := by
          rw [tileAtB_of_row lv.grid p.r p.c row0 hrow] at h5
          exact h5
        have h0c : 0 ≤ p.c := by
          by_contra hneg
          simp [jsIndex, hneg] at hcol
        rw [handleArrival_gate lv p row0 hrow h5] at h
        simp only [Except.ok.injEq, Prod.mk.injEq] at h
        obtain ⟨hp, hl⟩ := h
        subst hp
        subst hl
        have hrow1 : jsIndex (setTile lv.grid p.r p.c 0) p.r = some (row0.set p.c.toNat 0) :=
          jsIndex_setTile_row lv.grid p.r p.c 0 row0 hrow h0c
        have ht1 : tileAtB (setTile lv.grid p.r p.c 0) p.r p.c = some 0 :=
          tileAtB_setTile_self lv.grid p.r p.c 0 row0 5 hrow hcol
        exact ⟨_, _, handleArrival_plain _ _ _ hrow1 (by rw [ht1]; simp) (by rw [ht1]; simp),
          rfl, rfl⟩
      · rw [handleArrival_plain lv p row0 hrow h4 h5] at h
        simp only [Except.ok.injEq, Prod.mk.injEq] at h
        obtain ⟨hp, hl⟩ := h
        subst hp
        subst hl
        exact ⟨_, _, handleArrival_plain lv _ row0 hrow h4 h5, rfl, rfl⟩

/-- Witness for C7: arrival on a key tile, resolved twice. -/
theorem claim7_resolve_idempotent_witness :
    ∃ p2 lv2,
      handleArrival ⟨[[0]], 32, none⟩
          { initPlayer 32 with keysCollected := 1, arrivedThisFrame := false } = .ok (p2, lv2) ∧
      p2.keysCollected =
        ({ initPlayer 32 with keysCollected := 1, arrivedThisFrame := false } : Player).keysCollected ∧
      lv2.grid = (⟨[[0]], 32, none⟩ : Level).grid :=
  claim7_resolve_idempotent ⟨[[4]], 32, none⟩ ⟨[[0]], 32, none⟩ (initPlayer 32)
    { initPlayer 32 with keysCollected := 1, arrivedThisFrame := false } rfl

/- ### Characterization of the start-finding scan -/

theorem rowScan_eq_some_iff (cols : Nat) (row : List Int) (i c : Nat) :
    rowScan cols row i = some c ↔
      ∃ k, c = i + k ∧ i + k < cols ∧ row[k]? = some 2 ∧
        ∀ j < k, row[j]? ≠ some 2 := by
  induction row generalizing i with
  | nil => simp [rowScan]
  | cons v rest ih =>
    rw [rowScan]
    by_cases hic : cols ≤ i
    · simp only [if_pos hic]
      constructor
      · intro h; cases h
      · rintro ⟨k, -, hk, -, -⟩
        omega
    · rw [if_neg hic]
      by_cases hv : v = 2
      · rw [if_pos hv]
        constructor
        · intro h
          injection h with h
          exact ⟨0, by omega, by omega, by simp [hv], by omega⟩
        · rintro ⟨k, hc, hklt, hk2, hprev⟩
          cases k with
          | zero => simp [hc]
          | succ m =>
            exfalso
            exact hprev 0 (by omega) (by simp [hv])
      · rw [if_neg hv]
        rw [ih (i + 1)]
        constructor
        · rintro ⟨k, hc, hklt, hk2, hprev⟩
          refine ⟨k + 1, by omega, by omega, by simpa using hk2, ?_⟩
          intro j hj
          cases j with
          | zero => simp [hv]
          | succ m => simpa using hprev m (by omega)
        · rintro ⟨k, hc, hklt, hk2, hprev⟩
          cases k with
          | zero =>
            exfalso
            simp at hk2
            exact hv hk2
          | succ m =>
            refine ⟨m, by omega, by omega, by simpa using hk2, ?_⟩
            intro j hj
            simpa using hprev (j + 1) (by omega)

theorem rowScan_eq_none_iff (cols : Nat) (row : List Int) (i : Nat) :
    rowScan cols row i = none ↔ ∀ k, i + k < cols → row[k]? ≠ some 2 := by
  induction row generalizing i with
  | nil => simp [rowScan]
  | cons v rest ih =>
    rw [rowScan]
    by_cases hic : cols ≤ i
    · simp only [if_pos hic]
      constructor
      · intro _ k hk
        omega
      · intro _
        trivial
    · rw [if_neg hic]
      by_cases hv : v = 2
      · rw [if_pos hv]
        constructor
        · intro h; cases h
        · intro h
          exact absurd (by simp [hv] : (v :: rest)[0]? = some 2) (h 0 (by omega))
      · rw [if_neg hv, ih (i + 1)]
        constructor
        · intro h k hk
          cases k with
          | zero => simp [hv]
          | succ m => simpa using h m (by omega)
        · intro h k hk
          simpa using h (k + 1) (by omega)

theorem findStartAux_eq_some_iff (cols : Nat) (g : List (List Int)) (i r c : Nat) :
    findStartAux cols g i = some (r, c) ↔
      ∃ k row, r = i + k ∧ g[k]? = some row ∧ rowScan cols row 0 = some c ∧
        ∀ j row', j < k → g[j]? = some row' → rowScan cols row' 0 = none := by
  induction g generalizing i with
  | nil => simp [findStartAux]
  | cons row0 rest ih =>
    rw [findStartAux]
    cases hr0 : rowScan cols row0 0 with
    | some c0 =>
      simp only [Option.some.injEq, Prod.mk.injEq]
      constructor
      · rintro ⟨rfl, rfl⟩
        exact ⟨0, row0, by omega, by simp, hr0, by omega⟩
      · rintro ⟨k, row, hr, hk, hscan, hprev⟩
        cases k with
        | zero =>
          simp at hk
          subst hk
          rw [hr0] at hscan
          injection hscan with hscan
          exact ⟨by omega, hscan⟩
        | succ m =>
          exfalso
          have := hprev 0 row0 (by omega) (by simp)
          rw [hr0] at this
          cases this
    | none =>
      rw [ih (i + 1)]
      constructor
      · rintro ⟨k, row, hr, hk, hscan, hprev⟩
        refine ⟨k + 1, row, by omega, by simpa using hk, hscan, ?_⟩
        intro j row' hj hj'
        cases j with
        | zero =>
          simp at hj'
          subst hj'
          exact hr0
        | succ m =>
          exact hprev m row' (by omega) (by simpa using hj')
      · rintro ⟨k, row, hr, hk, hscan, hprev⟩
        cases k with
        | zero =>
          exfalso
          simp at hk
          subst hk
          rw [hr0] at hscan
          cases hscan
        | succ m =>
          refine ⟨m, row, by omega, by simpa using hk, hscan, ?_⟩
          intro j row' hj hj'
          exact hprev (j + 1) row' (by omega) (by simpa using hj')

theorem findStartAux_eq_none_iff (cols : Nat) (g : List (List Int)) (i : Nat) :
    findStartAux cols g i = none ↔
      ∀ (k : Nat) (row : List Int), g[k]? = some row → rowScan cols row 0 = none := by
  induction g generalizing i with
  | nil => simp [findStartAux]
  | cons row0 rest ih =>
    rw [findStartAux]
    cases hr0 : rowScan cols row0 0 with
    | some c0 =>
      constructor
      · intro h; cases h
      · intro h
        have := h 0 row0 (by simp)
        rw [hr0] at this
        cases this
    | none =>
      rw [ih (i + 1)]
      constructor
      · intro h k row hk
        cases k with
        | zero =>
          simp at hk
          subst hk
          exact hr0
        | succ m => exact h m row (by simpa using hk)
      · intro h k row hk
        exact h (k + 1) row (by simpa using hk)

/- ### Uniqueness of the start tile under the at-most-one-start precondition -/

theorem mem_of_getElem_opt {α : Type} (l : List α) (n : Nat) (a : α) (h : l[n]? = some a) :
    a ∈ l := by
  obtain ⟨hlt, rfl⟩ := List.getElem?_eq_some.mp h
  exact List.getElem_mem hlt

theorem countP_two_indices (l : List Int) (i j : Nat) (hij : i ≠ j)
    (hi : l[i]? = some 2) (hj : l[j]? = some 2) :
    2 ≤ l.countP fun v => decide (v = 2) := by
  induction l generalizing i j with
  | nil => simp at hi
  | cons v rest ih =>
    cases i with
    | zero =>
      have hv : v = 2 := by simpa using hi
      subst hv
      cases j with
      | zero => exact absurd rfl hij
      | succ m =>
        have h1 : 0 < rest.countP fun v => decide (v = 2) :=
          List.countP_pos_iff.mpr ⟨2, mem_of_getElem_opt rest m 2 (by simpa using hj), by simp⟩
        rw [List.countP_cons]
        split
        · omega
        · next hfalse => exact absurd (by simp) hfalse
    | succ n =>
      cases j with
      | zero =>
        have hv : v = 2 := by simpa using hj
        subst hv
        have h1 : 0 < rest.countP fun v => decide (v = 2) :=
          List.countP_pos_iff.mpr ⟨2, mem_of_getElem_opt rest n 2 (by simpa using hi), by simp⟩
        rw [List.countP_cons]
        split
        · omega
        · next hfalse => exact absurd (by simp) hfalse
      | succ m =>
        have h2 := ih n m (by omega) (by simpa using hi) (by simpa using hj)
        rw [List.countP_cons]
        split <;> omega

theorem sum_two_indices (l : List Nat) (i j : Nat) (a b : Nat) (hij : i ≠ j)
    (hi : l[i]? = some a) (hj : l[j]? = some b) : a + b ≤ l.sum := by
  induction l generalizing i j with
  | nil => simp at hi
  | cons x rest ih =>
    rw [List.sum_cons]
    cases i with
    | zero =>
      simp at hi
      subst hi
      cases j with
      | zero => omega
      | succ m =>
        have hb : b ≤ rest.sum :=
          List.single_le_sum (by simp) b (mem_of_getElem_opt rest m b (by simpa using hj))
        omega
    | succ n =>
      cases j with
      | zero =>
        simp at hj
        subst hj
        have ha : a ≤ rest.sum :=
          List.single_le_sum (by simp) a (mem_of_getElem_opt rest n a (by simpa using hi))
        omega
      | succ m =>
        have := ih n m (by omega) (by simpa using hi) (by simpa using hj)
        omega

theorem countP_le_countStarts (g : List (List Int)) (r : Nat) (row : List Int)
    (hrow : g[r]? = some row) :
    (row.countP fun v => decide (v = 2)) ≤ countStarts g := by
  have hmap : (g.map fun row => row.countP fun v => decide (v = 2))[r]? =
      some (row.countP fun v => decide (v = 2)) := by
    rw [List.getElem?_map, hrow]
    rfl
  exact List.single_le_sum (by simp) _
    (mem_of_getElem_opt _ r _ hmap)

theorem starts_unique (g : List (List Int)) (h1 : countStarts g ≤ 1)
    (r c r' c' : Nat) (h : tileN g r c = some 2) (h' : tileN g r' c' = some 2) :
    r = r' ∧ c = c' := by
  rw [tileN, Option.bind_eq_some] at h h'
  obtain ⟨row, hrow, hc⟩ := h
  obtain ⟨row', hrow', hc'⟩ := h'
  by_cases hr : r = r'
  · subst hr
    rw [hrow] at hrow'
    injection hrow' with hrow'
    subst hrow'
    by_cases hcc : c = c'
    · exact ⟨rfl, hcc⟩
    · exfalso
      have h2 := countP_two_indices row c c' hcc hc hc'
      have h3 := countP_le_countStarts g r row hrow
      omega
  · exfalso
    have ha : 0 < row.countP fun v => decide (v = 2) :=
      List.countP_pos_iff.mpr ⟨2, mem_of_getElem_opt row c 2 hc, by simp⟩
    have hb : 0 < row'.countP fun v => decide (v = 2) :=
      List.countP_pos_iff.mpr ⟨2, mem_of_getElem_opt row' c' 2 hc', by simp⟩
    have hmap : (g.map fun row => row.countP fun v => decide (v = 2))[r]? =
        some (row.countP fun v => decide (v = 2)) := by
      rw [List.getElem?_map, hrow]
      rfl
    have hmap' : (g.map fun row => row.countP fun v => decide (v = 2))[r']? =
        some (row'.countP fun v => decide (v = 2)) := by
      rw [List.getElem?_map, hrow']
      rfl
    have := sum_two_indices _ r r' _ _ hr hmap hmap'
    have hsum : countStarts g =
        (g.map fun row => row.countP fun v => decide (v = 2)).sum := rfl
    omega

/-- C6 (amended): on rectangular matrices, `findStart` returns the row-major
first cell holding the Start code `2` (or none when no Start is present), and
— provided the matrix contains at most one Start code — the constructed
level's grid contains no Start code.  (With several Starts only the first one
is normalized; see the counterexample.) -/
theorem claim6_findStart_spec (g : List (List Int)) (hRect : Rect g) :
    (∀ r c : Nat, findStart g = some (r, c) →
      tileN g r c = some 2 ∧
        ∀ r' c' : Nat, r' < r ∨ (r' = r ∧ c' < c) → tileN g r' c' ≠ some 2) ∧
    (findStart g = none → ∀ r c : Nat, tileN g r c ≠ some 2) ∧
    (countStarts g ≤ 1 → ∀ (ts : ℝ) (r c : Nat),
      tileN (buildLevel g ts).grid r c ≠ some 2) := by
  have some_case : ∀ r c : Nat, findStart g = some (r, c) →
      tileN g r c = some 2 ∧
        ∀ r' c' : Nat, r' < r ∨ (r' = r ∧ c' < c) → tileN g r' c' ≠ some 2 := by
    intro r c h
    rw [findStart, findStartAux_eq_some_iff] at h
    obtain ⟨k, row, hrk, hrow, hscan, hprev⟩ := h
    have hk : k = r := by omega
    subst hk
    rw [rowScan_eq_some_iff] at hscan
    obtain ⟨k', hck, hklt, h2, hprevc⟩ := hscan
    have hkc : k' = c := by omega
    subst hkc
    constructor
    · rw [tileN, hrow]
      simpa using h2
    · intro r' c' hlt h2'
      rw [tileN, Option.bind_eq_some] at h2'
      obtain ⟨row', hrow', hc'⟩ := h2'
      have hclen : c' < row'.length := (List.getElem?_eq_some.mp hc').1
      have hcols : row'.length = (g.headD []).length :=
        hRect row' (mem_of_getElem_opt g r' row' hrow')
      rcases hlt with hr' | ⟨rfl, hc'lt⟩
      · have hnone := hprev r' row' hr' hrow'
        rw [rowScan_eq_none_iff] at hnone
        exact hnone c' (by omega) hc'
      · rw [hrow] at hrow'
        injection hrow' with hrow'
        subst hrow'
        exact hprevc c' hc'lt hc'
  have none_case : findStart g = none → ∀ r c : Nat, tileN g r c ≠ some 2 := by
    intro h r c h2
    rw [findStart, findStartAux_eq_none_iff] at h
    rw [tileN, Option.bind_eq_some] at h2
    obtain ⟨row, hrow, hc⟩ := h2
    have hclen : c < row.length := (List.getElem?_eq_some.mp hc).1
    have hcols : row.length = (g.headD []).length :=
      hRect row (mem_of_getElem_opt g r row hrow)
    have hnone := h r row hrow
    rw [rowScan_eq_none_iff] at hnone
    exact hnone c (by omega) hc
  refine ⟨some_case, none_case, ?_⟩
  intro h1 ts r c h2
  cases hfs : findStart g with
  | none =>
    have hgrid : (buildLevel g ts).grid = g := by
      simp only [buildLevel, hfs]
    rw [hgrid] at h2
    exact none_case hfs r c h2
  | some rc =>
    obtain ⟨r0, c0⟩ := rc
    obtain ⟨h20, hfirst⟩ := some_case r0 c0 hfs
    have hgrid : (buildLevel g ts).grid = setTile g (r0 : Int) (c0 : Int) 0 := by
      simp only [buildLevel, hfs]
    rw [hgrid] at h2
    by_cases heq : r = r0 ∧ c = c0
    · obtain ⟨rfl, rfl⟩ := heq
      rw [tileN, Option.bind_eq_some] at h20
      obtain ⟨row, hrow, hc⟩ := h20
      rw [tileN_setTile_self g r c 0 row 2 hrow hc] at h2
      simp at h2
    · rw [tileN_setTile_other g r0 c0 0 r c (by tauto)] at h2
      have huniq := starts_unique g h1 r c r0 c0 h2 h20
      exact heq ⟨huniq.1, huniq.2⟩

/-- C6 counterexample: with two Start codes, only the first (row-major) one
is normalized by the constructor; the second survives, so the constructed
grid still contains the Start code, contradicting the claim's
"no cell of the constructed grid equals the Start code" for every matrix. -/
theorem claim6_counterexample :
    findStart [[2, 2]] = some (0, 0) ∧
    tileN (buildLevel [[2, 2]] 32).grid 0 1 = some 2 :=
  ⟨rfl, rfl⟩

/-- Witness for C6 on a rectangular single-start grid. -/
theorem claim6_findStart_spec_witness :
    (tileN [[0, 0], [0, 2]] 1 1 = some 2 ∧
      ∀ r' c' : Nat, r' < 1 ∨ (r' = 1 ∧ c' < 1) →
        tileN [[0, 0], [0, 2]] r' c' ≠ some 2) ∧
    (∀ r c : Nat, tileN (buildLevel [[0, 0], [0, 2]] 32).grid r c ≠ some 2) := by
  have h := claim6_findStart_spec [[0, 0], [0, 2]] (by decide)
  exact ⟨h.1 1 1 rfl, h.2.2 (by decide) 32⟩

/-- C4 (amended): on a rectangular grid, an out-of-bounds query hits one of
two regimes: when the row index is valid (only the column is out of range, or
negative) each predicate returns false without error; when the row index
itself is out of range (negative or at least `rows`), `this.grid[r]` is
`undefined` and each predicate throws a TypeError instead of returning
false. -/
theorem claim4_oob_predicates (lv : Level) (r c : Int) (hRect : Rect lv.grid)
    (hob : lv.inBounds r c = false) :
    (0 ≤ r ∧ r < lv.rows →
      lv.isWall r c = .ok false ∧ lv.isGoal r c = .ok false ∧
      lv.isKey r c = .ok false ∧ lv.isGate r c = .ok false) ∧
    (¬(0 ≤ r ∧ r < lv.rows) →
      lv.isWall r c = .error () ∧ lv.isGoal r c = .error () ∧
      lv.isKey r c = .error () ∧ lv.isGate r c = .error ()) := by
  constructor
  · rintro ⟨h0r, hrlt⟩
    obtain ⟨row, hrow⟩ := jsIndex_isSome lv.grid r h0r (by simpa [Level.rows] using hrlt)
    have hrowlen : row.length = (lv.grid.headD []).length :=
      hRect row (by
        have h' : lv.grid[r.toNat]? = some row := by simpa [jsIndex, h0r] using hrow
        exact mem_of_getElem_opt lv.grid r.toNat row h')
    have hnc : ¬(0 ≤ c ∧ c < lv.cols) := by
      intro ⟨h0c, hclt⟩
      rw [← Bool.not_eq_true] at hob
      exact hob ((inBounds_iff lv r c).mpr ⟨h0r, h0c, by simpa [Level.rows] using hrlt, hclt⟩)
    have hnone : jsIndex row c = none := by
      rw [jsIndex]
      by_cases h0c : 0 ≤ c
      · rw [if_pos h0c, List.getElem?_eq_none]
        have : ¬(c < lv.cols) := fun hlt => hnc ⟨h0c, hlt⟩
        rw [Level.cols] at this
        rw [hrowlen]
        omega
      · rw [if_neg h0c]
    have htile : tileAtB lv.grid r c = none := by
      rw [tileAtB_of_row lv.grid r c row hrow, hnone]
    refine ⟨?_, ?_, ?_, ?_⟩ <;>
      · first
        | (rw [isWall_of_row lv r c row hrow, htile]; simp)
        | (rw [isGoal_of_row lv r c row hrow, htile]; simp)
        | (rw [isKey_of_row lv r c row hrow, htile]; simp)
        | (rw [isGate_of_row lv r c row hrow, htile]; simp)
  · intro hout
    have hnone : jsIndex lv.grid r = none := by
      rw [jsIndex]
      by_cases h0r : 0 ≤ r
      · rw [if_pos h0r, List.getElem?_eq_none]
        rw [Level.rows] at hout
        omega
      · rw [if_neg h0r]
    refine ⟨?_, ?_, ?_, ?_⟩ <;>
      simp [Level.isWall, Level.isGoal, Level.isKey, Level.isGate, Level.tileAt, hnone,
        Except.map]

/-- C4 counterexample: querying a row index past the last row makes every
predicate throw (here modelled as `.error ()`), so "each is false for
out-of-bounds input and does not error" fails as stated. -/
theorem claim4_counterexample :
    Level.inBounds ⟨[[0]], 32, none⟩ 2 0 = false ∧
    Level.isWall ⟨[[0]], 32, none⟩ 2 0 = .error () ∧
    Level.isGoal ⟨[[0]], 32, none⟩ 2 0 = .error () ∧
    Level.isKey ⟨[[0]], 32, none⟩ 2 0 = .error () ∧
    Level.isGate ⟨[[0]], 32, none⟩ 2 0 = .error () :=
  ⟨rfl, rfl, rfl, rfl, rfl⟩

/-- Witness for C4: a column-only out-of-bounds query on a 1×1 grid. -/
theorem claim4_oob_predicates_witness :
    Level.isWall ⟨[[0]], 32, none⟩ 0 5 = .ok false ∧
    Level.isGoal ⟨[[0]], 32, none⟩ 0 5 = .ok false ∧
    Level.isKey ⟨[[0]], 32, none⟩ 0 5 = .ok false ∧
    Level.isGate ⟨[[0]], 32, none⟩ 0 5 = .ok false :=
  (claim4_oob_predicates ⟨[[0]], 32, none⟩ 0 5 (by decide) rfl).1 (by decide)

/-- C5 (amended): the `Level` constructor performs no validation and never
fails: any matrix — non-rectangular, containing invalid tile codes or several
Start codes — yields a `Level` object whose grid equals the input except that
the recorded (first) Start cell, when present, is normalized to Floor; no
`InvalidLevelData` condition exists in the code. -/
theorem claim5_no_validation (g : List (List Int)) (ts : ℝ) (r c : Nat)
    (hnot : findStart g ≠ some (r, c)) :
    (buildLevel g ts).start = findStart g ∧
    tileN (buildLevel g ts).grid r c = tileN g r c := by
  refine ⟨rfl, ?_⟩
  cases hfs : findStart g with
  | none =>
    have hgrid : (buildLevel g ts).grid = g := by
      simp only [buildLevel, hfs]
    rw [hgrid]
  | some rc =>
    obtain ⟨r0, c0⟩ := rc
    have hgrid : (buildLevel g ts).grid = setTile g (r0 : Int) (c0 : Int) 0 := by
      simp only [buildLevel, hfs]
    rw [hgrid]
    refine tileN_setTile_other g r0 c0 0 r c ?_
    rintro ⟨rfl, rfl⟩
    exact hnot hfs

/-- C5 counterexample: a matrix which is non-rectangular, holds the invalid
code 7 and two Start codes is accepted silently: construction succeeds and
produces a `Level` object (no failure is signalled). -/
theorem claim5_counterexample :
    buildLevel [[2, 2], [7]] 32 =
      ({ grid := [[0, 2], [7]], ts := 32, start := some (0, 0) } : Level) :=
  rfl

/-- Witness for C5 on the same malformed matrix: the cell holding the second
Start code is carried over unchanged into the constructed level. -/
theorem claim5_no_validation_witness :
    (buildLevel [[2, 2], [7]] 32).start = findStart [[2, 2], [7]] ∧
    tileN (buildLevel [[2, 2], [7]] 32).grid 0 1 = tileN [[2, 2], [7]] 0 1 :=
  claim5_no_validation [[2, 2], [7]] 32 0 1 (by decide)

/- ### Behaviour of the per-frame interpolation -/

theorem update_arrives (p : Player) (dt : ℝ) (hm : p.moving = true)
    (hle : remainingDist p ≤ stepSize dt p) :
    (update dt p).px = targetPixelX p ∧ (update dt p).py = targetPixelY p ∧
    (update dt p).moving = false ∧
    (update dt p).r = p.targetR.getD p.r ∧ (update dt p).c = p.targetC.getD p.c ∧
    (update dt p).arrivedThisFrame = true ∧
    (update dt p).targetR = p.targetR ∧ (update dt p).targetC = p.targetC := by
  rw [update.eq_def]
  simp only [hm, Bool.true_eq_false, if_false]
  by_cases hd : Real.sqrt ((jsNum p.targetC * p.ts + p.ts / 2 - p.px) *
      (jsNum p.targetC * p.ts + p.ts / 2 - p.px) +
      (jsNum p.targetR * p.ts + p.ts / 2 - p.py) *
      (jsNum p.targetR * p.ts + p.ts / 2 - p.py)) = 0
  · rw [if_pos hd]
    have hsum : (jsNum p.targetC * p.ts + p.ts / 2 - p.px) *
        (jsNum p.targetC * p.ts + p.ts / 2 - p.px) +
        (jsNum p.targetR * p.ts + p.ts / 2 - p.py) *
        (jsNum p.targetR * p.ts + p.ts / 2 - p.py) = 0 := by
      have hnn : 0 ≤ (jsNum p.targetC * p.ts + p.ts / 2 - p.px) *
          (jsNum p.targetC * p.ts + p.ts / 2 - p.px) +
          (jsNum p.targetR * p.ts + p.ts / 2 - p.py) *
          (jsNum p.targetR * p.ts + p.ts / 2 - p.py) :=
        add_nonneg (mul_self_nonneg _) (mul_self_nonneg _)
      have := Real.sqrt_eq_zero hnn
      rw [this] at hd
      exact hd
    have hx : jsNum p.targetC * p.ts + p.ts / 2 - p.px = 0 := by nlinarith [mul_self_nonneg (jsNum p.targetC * p.ts + p.ts / 2 - p.px), mul_self_nonneg (jsNum p.targetR * p.ts + p.ts / 2 - p.py)]
    have hy : jsNum p.targetR * p.ts + p.ts / 2 - p.py = 0 := by nlinarith [mul_self_nonneg (jsNum p.targetC * p.ts + p.ts / 2 - p.px), mul_self_nonneg (jsNum p.targetR * p.ts + p.ts / 2 - p.py)]
    refine ⟨?_, ?_, rfl, rfl, rfl, rfl, rfl, rfl⟩
    · simp only [Player.finishMove, targetPixelX]
      linarith
    · simp only [Player.finishMove, targetPixelY]
      linarith
  · rw [if_neg hd]
    have hle' : Real.sqrt ((jsNum p.targetC * p.ts + p.ts / 2 - p.px) *
        (jsNum p.targetC * p.ts + p.ts / 2 - p.px) +
        (jsNum p.targetR * p.ts + p.ts / 2 - p.py) *
        (jsNum p.targetR * p.ts + p.ts / 2 - p.py)) ≤ p.speed * (dt / 1000) := hle
    rw [if_pos hle']
    exact ⟨rfl, rfl, rfl, rfl, rfl, rfl, rfl, rfl⟩

theorem update_moves (p : Player) (dt : ℝ) (hm : p.moving = true)
    (h0 : 0 ≤ stepSize dt p) (hlt : stepSize dt p < remainingDist p) :
    update dt p = { p with
      px := p.px + (targetPixelX p - p.px) / remainingDist p * stepSize dt p
      py := p.py + (targetPixelY p - p.py) / remainingDist p * stepSize dt p } := by
  have hdpos : 0 < remainingDist p := lt_of_le_of_lt h0 hlt
  rw [update.eq_def]
  simp only [hm, Bool.true_eq_false, if_false]
  rw [if_neg (show ¬(Real.sqrt ((jsNum p.targetC * p.ts + p.ts / 2 - p.px) *
      (jsNum p.targetC * p.ts + p.ts / 2 - p.px) +
      (jsNum p.targetR * p.ts + p.ts / 2 - p.py) *
      (jsNum p.targetR * p.ts + p.ts / 2 - p.py)) = 0) from by
    intro hz
    rw [remainingDist, targetPixelX, targetPixelY] at hdpos
    rw [hz] at hdpos
    exact lt_irrefl 0 hdpos)]
  rw [if_neg (show ¬(Real.sqrt ((jsNum p.targetC * p.ts + p.ts / 2 - p.px) *
      (jsNum p.targetC * p.ts + p.ts / 2 - p.px) +
      (jsNum p.targetR * p.ts + p.ts / 2 - p.py) *
      (jsNum p.targetR * p.ts + p.ts / 2 - p.py)) ≤ p.speed * (dt / 1000)) from by
    intro hz
    rw [remainingDist, targetPixelX, targetPixelY] at hlt
    rw [stepSize] at hlt
    exact absurd hz (not_le.mpr hlt))]
  rfl

/-- Moving a fraction `step / d` of the way along the straight line toward
the target shortens the Euclidean distance by exactly `step`. -/
theorem sqrt_step_shrink (dx dy d step : ℝ) (hd : d = Real.sqrt (dx * dx + dy * dy))
    (hpos : 0 < d) (hlt : step < d) :
    Real.sqrt ((dx - dx / d * step) * (dx - dx / d * step) +
      (dy - dy / d * step) * (dy - dy / d * step)) = d - step := by
  have hdne : d ≠ 0 := ne_of_gt hpos
  have hfx : dx - dx / d * step = dx * ((d - step) / d) := by
    field_simp
    ring
  have hfy : dy - dy / d * step = dy * ((d - step) / d) := by
    field_simp
    ring
  rw [hfx, hfy]
  have hsq : dx * ((d - step) / d) * (dx * ((d - step) / d)) +
      dy * ((d - step) / d) * (dy * ((d - step) / d)) =
      ((d - step) / d) ^ 2 * (dx * dx + dy * dy) := by
    ring
  have hknn : 0 ≤ (d - step) / d := div_nonneg (by linarith) (le_of_lt hpos)
  rw [hsq, Real.sqrt_mul (sq_nonneg _), Real.sqrt_sq hknn, ← hd]
  field_simp

/-- C3 (amended): with a transit in progress (`moving`, both targets set),
nonnegative `dt` and nonnegative speed, `update` moves the pixel position
toward the target centre by `speed * (dt / 1000)` and never overshoots: when
the step reaches or exceeds the remaining Euclidean distance the position
snaps exactly onto the target centre, the machine goes Idle, the cell is
committed to the target, `justArrived` is set — but `targetR`/`targetC`
retain their values rather than being cleared; otherwise the position slides
along the line toward the target, shortening the remaining distance by
exactly the step (strictly closer when the step is positive, unchanged when
`dt = 0`). -/
theorem claim3_update_no_overshoot (p : Player) (dt : ℝ) (tr tc : Int)
    (hm : p.moving = true) (htr : p.targetR = some tr) (htc : p.targetC = some tc)
    (hdt : 0 ≤ dt) (hsp : 0 ≤ p.speed) :
    (remainingDist p ≤ stepSize dt p →
      (update dt p).px = targetPixelX p ∧ (update dt p).py = targetPixelY p ∧
      (update dt p).moving = false ∧ (update dt p).r = tr ∧ (update dt p).c = tc ∧
      (update dt p).arrivedThisFrame = true ∧
      (update dt p).targetR = some tr ∧ (update dt p).targetC = some tc) ∧
    (stepSize dt p < remainingDist p →
      (update dt p).moving = true ∧ (update dt p).r = p.r ∧ (update dt p).c = p.c ∧
      (update dt p).arrivedThisFrame = p.arrivedThisFrame ∧
      (update dt p).targetR = some tr ∧ (update dt p).targetC = some tc ∧
      remainingDist (update dt p) = remainingDist p - stepSize dt p) := by
  have hstep : 0 ≤ stepSize dt p :=
    mul_nonneg hsp (div_nonneg hdt (by norm_num))
  constructor
  · intro hle
    obtain ⟨h1, h2, h3, h4, h5, h6, h7, h8⟩ := update_arrives p dt hm hle
    rw [htr] at h4 h7
    rw [htc] at h5 h8
    exact ⟨h1, h2, h3, by simpa using h4, by simpa using h5, h6, h7, h8⟩
  · intro hlt
    have hdpos : 0 < remainingDist p := lt_of_le_of_lt hstep hlt
    have heq := update_moves p dt hm hstep hlt
    rw [heq]
    refine ⟨hm, rfl, rfl, rfl, htr, htc, ?_⟩
    have hstep1 : remainingDist { p with
        px := p.px + (targetPixelX p - p.px) / remainingDist p * stepSize dt p
        py := p.py + (targetPixelY p - p.py) / remainingDist p * stepSize dt p } =
      Real.sqrt
        ((targetPixelX p - (p.px + (targetPixelX p - p.px) / remainingDist p * stepSize dt p)) *
          (targetPixelX p - (p.px + (targetPixelX p - p.px) / remainingDist p * stepSize dt p)) +
        (targetPixelY p - (p.py + (targetPixelY p - p.py) / remainingDist p * stepSize dt p)) *
          (targetPixelY p - (p.py + (targetPixelY p - p.py) / remainingDist p * stepSize dt p))) :=
      rfl
    rw [hstep1]
    have harg : ∀ a b : ℝ, a - (b + (a - b) / remainingDist p * stepSize dt p) =
        (a - b) - (a - b) / remainingDist p * stepSize dt p := by
      intro a b
      ring
    rw [harg (targetPixelX p) p.px, harg (targetPixelY p) p.py]
    exact sqrt_step_shrink _ _ _ _ rfl hdpos hlt

theorem remainingDist_demo : remainingDist demoTransit = 32 := by
  have hx : targetPixelX demoTransit - demoTransit.px = 32 := by
    simp only [targetPixelX, demoTransit, initPlayer, jsNum, Option.getD_some]
    norm_num
  have hy : targetPixelY demoTransit - demoTransit.py = 0 := by
    simp only [targetPixelY, demoTransit, initPlayer, jsNum, Option.getD_some]
    norm_num
  rw [remainingDist, hx, hy]
  rw [show (32 : ℝ) * 32 + 0 * 0 = 32 ^ 2 by norm_num]
  exact Real.sqrt_sq (by norm_num)

theorem stepSize_demo_1000 : stepSize 1000 demoTransit = 130 := by
  simp only [stepSize, demoTransit, initPlayer]
  norm_num

theorem stepSize_demo_0 : stepSize 0 demoTransit = 0 := by
  simp [stepSize]

/-- C3 counterexample: after an arriving `update` the transit target is NOT
cleared (it still holds the old target, not `null`), and at `dt = 0` — which
the claim's "for every dt ≥ 0 … otherwise strictly closer" covers — the pixel
position and remaining distance are unchanged, so the avatar does not move
strictly closer. -/
theorem claim3_counterexample :
    (update 1000 demoTransit).moving = false ∧
    (update 1000 demoTransit).targetR = some 0 ∧
    (update 1000 demoTransit).targetR ≠ none ∧
    (update 1000 demoTransit).targetC = some 1 ∧
    (update 0 demoTransit).moving = true ∧
    (update 0 demoTransit).px = demoTransit.px ∧
    (update 0 demoTransit).py = demoTransit.py := by
  obtain ⟨-, -, hmv, -, -, -, htR, htC⟩ := update_arrives demoTransit 1000 rfl
    (by rw [remainingDist_demo, stepSize_demo_1000]; norm_num)
  have hmove := update_moves demoTransit 0 rfl
    (by simp [stepSize_demo_0])
    (by rw [stepSize_demo_0, remainingDist_demo]; norm_num)
  refine ⟨hmv, ?_, ?_, ?_, ?_, ?_, ?_⟩
  · rw [htR]
    rfl
  · rw [htR]
    simp [demoTransit]
  · rw [htC]
    rfl
  · rw [hmove]
    rfl
  · rw [hmove]
    simp [stepSize_demo_0]
  · rw [hmove]
    simp [stepSize_demo_0]

/-- Witness for C3 at the demo transit with a large frame delta: the step
(130 px) exceeds the remaining distance (32 px) and the avatar snaps onto the
target centre. -/
theorem claim3_update_no_overshoot_witness :
    (update 1000 demoTransit).px = targetPixelX demoTransit ∧
    (update 1000 demoTransit).py = targetPixelY demoTransit ∧
    (update 1000 demoTransit).moving = false ∧
    (update 1000 demoTransit).r = 0 ∧ (update 1000 demoTransit).c = 1 ∧
    (update 1000 demoTransit).arrivedThisFrame = true ∧
    (update 1000 demoTransit).targetR = some 0 ∧
    (update 1000 demoTransit).targetC = some 1 := by
  have h := claim3_update_no_overshoot demoTransit 1000 0 1 rfl rfl rfl
    (by norm_num) (by norm_num [demoTransit, initPlayer])
  exact h.1 (by rw [remainingDist_demo, stepSize_demo_1000]; norm_num)
